import Mathlib

set_option maxRecDepth 10000

/-!
Verification development for the Hapi reverse proxy core.

The definitions below are a shallow embedding of the Rust sources:
`src/modules/core.rs` (routing context, routes, upstreams, strategies),
`src/modules/probe.rs` (the `Poller` debouncing state machine),
`src/modules/stats.rs` (the stats aggregator), and the upstream-string
conversion of `src/infrastructure/serializable_model.rs`.  Rust `HashMap`s
are modelled by association lists with insert-replace semantics (iteration
order is first-insertion order, one fixed determinization of the map's
unspecified order); `usize`/`u64` counters are modelled by `Nat` (no value
in these programs approaches the word size); fallible operations return
`Except`/`Option`.  Stateful methods take the receiver and return the
updated receiver next to their result.
-/

/-! ### Association-list model of `std::collections::HashMap` -/

/-- Embeds `HashMap::get` (the first binding of the key; keys are unique by
construction, every map below is built from `[]` by `hmInsert`). -/
def hmGet {α β : Type} [DecidableEq α] : List (α × β) → α → Option β
  | [], _ => none
  | (k, v) :: rest, a => if k = a then some v else hmGet rest a

/-- Embeds `HashMap::contains_key`. -/
def hmContains {α β : Type} [DecidableEq α] (m : List (α × β)) (a : α) : Bool :=
  (hmGet m a).isSome

/-- Embeds `HashMap::insert`: replaces the binding in place if the key is present,
otherwise appends a fresh binding. -/
def hmInsert {α β : Type} [DecidableEq α] : List (α × β) → α → β → List (α × β)
  | [], k, v => [(k, v)]
  | (k₁, v₁) :: rest, k, v =>
    if k₁ = k then (k, v) :: rest else (k₁, v₁) :: hmInsert rest k v

/-! ### Upstreams and strategies (`src/modules/core.rs`, module `upstream`) -/

/-- Embeds `UpstreamAddress`: either an FQDN string or a structured IPv4 address
`(o1, o2, o3, o4, port)` (`u8` octets and `u16` port modelled by `Nat`). -/
inductive UpstreamAddress : Type
  | FQDN (fqdn : String)
  | IPv4 (o1 o2 o3 o4 : Nat) (port : Nat)
  deriving DecidableEq, Repr

/-- Embeds `Upstream { address, enabled }`. -/
structure Upstream : Type where
  address : UpstreamAddress
  enabled : Bool
  deriving DecidableEq, Repr

/-- Embeds `Upstream::build_from_fqdn`. -/
def Upstream.build_from_fqdn (fqdn : String) : Upstream :=
  { address := UpstreamAddress.FQDN fqdn, enabled := true }

/-- Embeds `Upstream::build_from_ipv4`. -/
def Upstream.build_from_ipv4 (ipv4 : Nat × Nat × Nat × Nat × Nat) : Upstream :=
  { address := UpstreamAddress.IPv4 ipv4.1 ipv4.2.1 ipv4.2.2.1 ipv4.2.2.2.1 ipv4.2.2.2.2,
    enabled := true }

/-- Embeds `UpstreamStrategy`: tagged variant, each variant owning its upstream list;
`RoundRobin` additionally owns the mutable `next_index`. -/
inductive UpstreamStrategy : Type
  | AlwaysFirst (upstreams : List Upstream)
  | RoundRobin (upstreams : List Upstream) (next_index : Nat)
  deriving DecidableEq, Repr

/-- The `AlwaysFirst` arm of `UpstreamStrategy::next`: scan in declaration
order, return the first upstream with `enabled = true`. -/
def firstEnabledUpstream : List Upstream → Option Upstream
  | [] => none
  | u :: rest => if u.enabled then some u else firstEnabledUpstream rest

/-- The `RoundRobin` loop of `UpstreamStrategy::next`, verbatim: the loop
runs while `iter_counter < upstreams.len()` (here `fuel` counts the
remaining iterations, starting at `upstreams.length`); each iteration
inspects `upstreams[next_index]` and, when that entry is enabled, returns
it and advances `next_index`; otherwise `next_index` is left untouched and
only the iteration counter advances.  Returns the result together with the
final `next_index`. -/
def roundRobinLoop (upstreams : List Upstream) (next_index : Nat) :
    Nat → Option Upstream × Nat
  | 0 => (none, next_index)
  | fuel + 1 =>
    match upstreams[next_index]? with
    | some ups =>
      if ups.enabled then (some ups, (next_index + 1) % upstreams.length)
      else roundRobinLoop upstreams next_index fuel
    | none => roundRobinLoop upstreams next_index fuel

/-- Embeds `UpstreamStrategy::next` (state passing: result plus updated strategy). -/
def UpstreamStrategy.next : UpstreamStrategy → Option Upstream × UpstreamStrategy
  | UpstreamStrategy.AlwaysFirst upstreams =>
    (firstEnabledUpstream upstreams, UpstreamStrategy.AlwaysFirst upstreams)
  | UpstreamStrategy.RoundRobin upstreams next_index =>
    let r := roundRobinLoop upstreams next_index upstreams.length
    (r.1, UpstreamStrategy.RoundRobin upstreams r.2)

/-- Embeds `UpstreamStrategy::get_upstreams`. -/
def UpstreamStrategy.get_upstreams : UpstreamStrategy → List Upstream
  | UpstreamStrategy.AlwaysFirst upstreams => upstreams
  | UpstreamStrategy.RoundRobin upstreams _ => upstreams

/-- The shared loop body of `enable_upstream`/`disable_upstream`: flip the
`enabled` flag on every upstream whose address equals the given one. -/
def setEnabledOn (upstream_address : UpstreamAddress) (b : Bool)
    (l : List Upstream) : List Upstream :=
  l.map (fun u => if u.address = upstream_address then { u with enabled := b } else u)

/-- Embeds `UpstreamStrategy::enable_upstream`. -/
def UpstreamStrategy.enable_upstream :
    UpstreamStrategy → UpstreamAddress → UpstreamStrategy
  | UpstreamStrategy.AlwaysFirst ups, a =>
    UpstreamStrategy.AlwaysFirst (setEnabledOn a true ups)
  | UpstreamStrategy.RoundRobin ups i, a =>
    UpstreamStrategy.RoundRobin (setEnabledOn a true ups) i

/-- Embeds `UpstreamStrategy::disable_upstream`. -/
def UpstreamStrategy.disable_upstream :
    UpstreamStrategy → UpstreamAddress → UpstreamStrategy
  | UpstreamStrategy.AlwaysFirst ups, a =>
    UpstreamStrategy.AlwaysFirst (setEnabledOn a false ups)
  | UpstreamStrategy.RoundRobin ups i, a =>
    UpstreamStrategy.RoundRobin (setEnabledOn a false ups) i

/-- Iterate `next` a given number of times, collecting the results in call
order and returning the final strategy state. -/
def nextRun : UpstreamStrategy → Nat → List (Option Upstream) × UpstreamStrategy
  | s, 0 => ([], s)
  | s, n + 1 =>
    let r := s.next
    let rest := nextRun r.2 n
    (r.1 :: rest.1, rest.2)

/-! ### The `Poller` state machine (`src/modules/probe.rs`; claims C2, C9) -/

/-- Embeds `Poller { error_count, success_count, current_error_count,
current_success_count, upstream_enabled }` (`u64` counters as `Nat`). -/
structure Poller : Type where
  error_count : Nat
  success_count : Nat
  current_error_count : Nat
  current_success_count : Nat
  upstream_enabled : Bool
  deriving DecidableEq, Repr

/-- Embeds `Poller::build`. -/
def Poller.build (error_count success_count : Nat) : Poller :=
  { error_count := error_count, success_count := success_count,
    current_error_count := 0, current_success_count := 0,
    upstream_enabled := true }

/-- Embeds `Poller::check_and_enable_upstream` — the success tick.  Returns
`true` exactly when the upstream was just enabled. -/
def Poller.check_and_enable_upstream (p : Poller) : Bool × Poller :=
  if p.upstream_enabled then (false, p)
  else
    let c := p.current_success_count + 1
    if c = p.success_count then
      (true, { p with upstream_enabled := true, current_success_count := 0 })
    else
      (false, { p with current_success_count := c })

/-- Embeds `Poller::check_and_disable_upstream` — the failure tick.  Returns
`true` exactly when the upstream was just disabled. -/
def Poller.check_and_disable_upstream (p : Poller) : Bool × Poller :=
  if p.upstream_enabled then
    let c := p.current_error_count + 1
    if c = p.error_count then
      (true, { p with upstream_enabled := false, current_error_count := 0 })
    else
      (false, { p with current_error_count := c })
  else (false, p)

/-- A probe tick observed by the poller: `success` drives
`check_and_enable_upstream`, `failure` drives `check_and_disable_upstream`. -/
inductive ProbeTick : Type
  | success
  | failure
  deriving DecidableEq, Repr

/-- Feed one tick to the poller. -/
def Poller.tick (p : Poller) : ProbeTick → Bool × Poller
  | ProbeTick.success => p.check_and_enable_upstream
  | ProbeTick.failure => p.check_and_disable_upstream

/-- Feed a sequence of ticks, keeping the final poller state. -/
def Poller.run (p : Poller) : List ProbeTick → Poller
  | [] => p
  | t :: rest => ((p.tick t).2).run rest

/-- The inductive invariant behind C9: the configured thresholds never
change and both running counters stay strictly below them. -/
def PollerInv (E S : Nat) (p : Poller) : Prop :=
  p.error_count = E ∧ p.success_count = S
    ∧ p.current_error_count < E ∧ p.current_success_count < S

/-! ### The stats aggregator (`src/modules/stats.rs`; claim C10) -/

/-- Embeds `Stats { counter }`: the `(client, method, path, upstream) → u64`
counter table (`u64` values as `Nat`). -/
structure Stats : Type where
  counter : List ((String × String × String × String) × Nat)
  deriving DecidableEq, Repr

/-- Embeds `Stats::build`. -/
def Stats.build : Stats := { counter := [] }

/-- Embeds `Stats::count_request`: `*counter.entry(key).or_insert(0) += 1` — the
binding for the key is replaced by its old value (0 when absent) plus 1. -/
def Stats.count_request (st : Stats) (client method path upstream : String) : Stats :=
  let key := (client, method, path, upstream)
  { counter := hmInsert st.counter key ((hmGet st.counter key).getD 0 + 1) }

/-- Embeds `Stats::get_all`: one `(client, method, path, upstream, count)` tuple
per stored entry; the table itself is not touched (`&self`). -/
def Stats.get_all (st : Stats) :
    List (String × String × String × String × Nat) :=
  st.counter.map (fun entry => (entry.1.1, entry.1.2.1, entry.1.2.2.1, entry.1.2.2.2, entry.2))

/-! ### The routing `Context` (`src/modules/core.rs`, modules `context` and
`route`; claims C3, C4, C5, C6) -/

/-- Embeds `CoreError`. -/
inductive CoreError : Type
  | RouteAlreadyExists
  | RouteNotExists
  | CannotCreateRegexp
  deriving DecidableEq, Repr

/-- Models `regex::Error`, the error type of `Regex::new`. -/
inductive RegexError : Type
  | CompileError
  deriving DecidableEq, Repr

/-- Embeds `regexp_for`: wrap a stored pattern into an anchored regular
expression `^pattern$`. -/
def regexp_for (string : String) : String := "^" ++ string ++ "$"

/-- Embeds `Route { id, name, methods, paths, strategy }`. -/
structure Route : Type where
  id : String
  name : String
  methods : List String
  paths : List String
  strategy : UpstreamStrategy
  deriving DecidableEq, Repr

/-- Embeds `Route::build`. -/
def Route.build (id name : String) (methods paths : List String)
    (strategy : UpstreamStrategy) : Route :=
  { id := id, name := name, methods := methods, paths := paths, strategy := strategy }

/-- Embeds `Context { routes, routing_table, route_index }`. -/
structure Context : Type where
  routes : List Route
  routing_table : List ((String × String) × Nat)
  route_index : List (String × Nat)
  deriving DecidableEq, Repr

/-- Embeds `Context::build_empty`. -/
def Context.build_empty : Context :=
  { routes := [], routing_table := [], route_index := [] }

/-- Insert a list of bindings into a map, in order (a sequence of
`HashMap::insert` calls). -/
def insAll {K : Type} [DecidableEq K] (m : List (K × Nat)) (kvs : List (K × Nat)) :
    List (K × Nat) :=
  kvs.foldl (fun acc kv => hmInsert acc kv.1 kv.2) m

/-- The shared shape of `rebuild_routing_table` / `rebuild_route_index`:
iterate the route list with its index (`for (index, route) in
routes.iter().enumerate()`), inserting every key contributed by the route
with the route's index as value. -/
def buildTable {K : Type} [DecidableEq K] (f : Route → List K) :
    List Route → Nat → List (K × Nat) → List (K × Nat)
  | [], _, m => m
  | r :: rest, idx, m =>
    buildTable f rest (idx + 1) (insAll m ((f r).map (fun k => (k, idx))))

/-- The `(path, method)` keys contributed by one route in
`rebuild_routing_table` (outer loop over `paths`, inner over `methods`). -/
def routeTableKeys (route : Route) : List (String × String) :=
  route.paths.flatMap (fun path => route.methods.map (fun method => (path, method)))

/-- Embeds `Context::rebuild_routing_table`, as a function of the route list (the
method clears the table and re-inserts every `(path, method) → index`). -/
def rebuild_routing_table_of (routes : List Route) : List ((String × String) × Nat) :=
  buildTable routeTableKeys routes 0 []

/-- Embeds `Context::rebuild_route_index`, as a function of the route list. -/
def rebuild_route_index_of (routes : List Route) : List (String × Nat) :=
  buildTable (fun r => [r.id]) routes 0 []

/-- Embeds `Context::do_add_route`: push the route, rebuild both indexes. -/
def Context.do_add_route (c : Context) (route : Route) : Context :=
  { routes := c.routes ++ [route],
    routing_table := rebuild_routing_table_of (c.routes ++ [route]),
    route_index := rebuild_route_index_of (c.routes ++ [route]) }

/-- Embeds `Context::do_remove_route`: `Vec::remove` at the index, rebuild both
indexes.  The returned `Option Route` is `none` exactly when `Vec::remove`
would panic (index out of range); this never happens on a well-formed
context. -/
def Context.do_remove_route (c : Context) (route_index : Nat) : Option Route × Context :=
  (c.routes[route_index]?,
   { routes := c.routes.eraseIdx route_index,
     routing_table := rebuild_routing_table_of (c.routes.eraseIdx route_index),
     route_index := rebuild_route_index_of (c.routes.eraseIdx route_index) })

/-- Embeds `Context::add_route`: fail fast with `RouteAlreadyExists` when the id
is already a key of the route index, otherwise `do_add_route`. -/
def Context.add_route (c : Context) (route : Route) : Except CoreError Unit × Context :=
  if !(hmContains c.route_index route.id) then (Except.ok (), c.do_add_route route)
  else (Except.error CoreError.RouteAlreadyExists, c)

/-- Embeds `Context::remove_route`: look the id up in the route index; on a miss
fail with `RouteNotExists`, otherwise `do_remove_route` at that index and
return the removed route. -/
def Context.remove_route (c : Context) (route_id : String) :
    Except CoreError (Option Route) × Context :=
  match hmGet c.route_index route_id with
  | some route_index =>
    let r := c.do_remove_route route_index
    (Except.ok r.1, r.2)
  | none => (Except.error CoreError.RouteNotExists, c)

/-- Embeds `Context::disable_upstream_for_all_routes`. -/
def Context.disable_upstream_for_all_routes (c : Context) (upstream : UpstreamAddress) :
    Except CoreError Unit × Context :=
  (Except.ok (),
   { c with routes :=
      c.routes.map (fun r => { r with strategy := r.strategy.disable_upstream upstream }) })

/-- Embeds `Context::enable_upstream_for_all_routes`. -/
def Context.enable_upstream_for_all_routes (c : Context) (upstream : UpstreamAddress) :
    Except CoreError Unit × Context :=
  (Except.ok (),
   { c with routes :=
      c.routes.map (fun r => { r with strategy := r.strategy.enable_upstream upstream }) })

/-- Embeds `Context::get_all_routes`. -/
def Context.get_all_routes (c : Context) : Except CoreError (List Route) :=
  Except.ok c.routes

/-- Embeds `Context::get_route_by_id`. -/
def Context.get_route_by_id (c : Context) (route_id : String) :
    Except CoreError (Option Route) :=
  Except.ok ((hmGet c.route_index route_id).bind (fun index => c.routes[index]?))

/-- The loop of `Context::match_route_index` over the routing-table
entries.  `compile` models `Regex::new` on the anchored pattern: `none` is
a compile error (propagated immediately, as the source's `?` does), `some
f` is the compiled regex's `is_match`. -/
def matchRouteAux (compile : String → Option (String → Bool)) (path method : String) :
    List ((String × String) × Nat) → Except RegexError (Option Nat)
  | [] => Except.ok none
  | (key, value) :: rest =>
    match compile (regexp_for key.1) with
    | none => Except.error RegexError.CompileError
    | some path_regexp =>
      match compile (regexp_for key.2) with
      | none => Except.error RegexError.CompileError
      | some method_regexp =>
        if path_regexp path && method_regexp method then Except.ok (some value)
        else matchRouteAux compile path method rest

/-- Embeds `Context::match_route_index`. -/
def Context.match_route_index (compile : String → Option (String → Bool))
    (c : Context) (path method : String) : Except RegexError (Option Nat) :=
  matchRouteAux compile path method c.routing_table

/-- Embeds `Context::find_route_index`: exact routing-table hit first, else the
regex fallback — whose error is discarded by `.ok()?` in the source, i.e.
a failed compile flattens to `none` and the function always returns
`Ok(...)`. -/
def Context.find_route_index (compile : String → Option (String → Bool))
    (c : Context) (path method : String) : Except CoreError (Option Nat) :=
  Except.ok
    (match hmGet c.routing_table (path, method) with
     | some value => some value
     | none => (c.match_route_index compile path method).toOption.join)

/-- Embeds `Context::upstream_lookup`: resolve the route index, then drive that
route's strategy (`routes.get_mut(i)` then `strategy.next()`; a `None`
from either stage is a miss). -/
def Context.upstream_lookup (compile : String → Option (String → Bool))
    (c : Context) (path method : String) :
    Except CoreError (Option Upstream) × Context :=
  match c.find_route_index compile path method with
  | Except.error e => (Except.error e, c)
  | Except.ok none => (Except.ok none, c)
  | Except.ok (some route_index) =>
    match c.routes[route_index]? with
    | none => (Except.ok none, c)
    | some route =>
      let r := route.strategy.next
      (Except.ok r.1,
       { c with routes := c.routes.set route_index { route with strategy := r.2 } })

/-- Well-formedness: both indexes are the rebuilds of the route list.
This holds for every context reachable through the public API, because
`do_add_route`/`do_remove_route` rebuild both indexes before returning. -/
def ContextWF (c : Context) : Prop :=
  c.routing_table = rebuild_routing_table_of c.routes
  ∧ c.route_index = rebuild_route_index_of c.routes

/-- Contexts reachable from `build_empty` by successful `add_route` /
`remove_route` calls. -/
inductive Reachable : Context → Prop
  | empty : Reachable Context.build_empty
  | add (c : Context) (r : Route) (c₂ : Context) :
      Reachable c → c.add_route r = (Except.ok (), c₂) → Reachable c₂
  | remove (c : Context) (rid : String) (r : Option Route) (c₂ : Context) :
      Reachable c → c.remove_route rid = (Except.ok r, c₂) → Reachable c₂

/-! ### Auxiliary definitions for the index characterisation and the
concrete sample contexts -/

/-- The index recorded for a key by the rebuild loop: the last route
(scanning left to right, i.e. the greatest index) whose contributed keys
contain it. -/
def lastKeyIdx {K : Type} [DecidableEq K] (f : Route → List K) :
    List Route → Nat → K → Option Nat
  | [], _, _ => none
  | r :: rest, idx, k =>
    match lastKeyIdx f rest (idx + 1) k with
    | some j => some j
    | none => if k ∈ f r then some idx else none

/-- Sample route "a" (paths `["/x"]`, methods `["GET"]`). -/
def cxRouteA : Route :=
  Route.build "a" "ra" ["GET"] ["/x"]
    (UpstreamStrategy.AlwaysFirst [Upstream.build_from_fqdn "u0"])

/-- Sample route "b" listing the same `("/x", "GET")` pair as `cxRouteA`. -/
def cxRouteB : Route :=
  Route.build "b" "rb" ["GET"] ["/x"]
    (UpstreamStrategy.AlwaysFirst [Upstream.build_from_fqdn "u1"])

/-- The context holding just `cxRouteA`, built through `add_route`. -/
def cxSingle : Context := (Context.build_empty.add_route cxRouteA).2

/-- The context holding `cxRouteA` then `cxRouteB`, built through `add_route`. -/
def cxDup : Context := (cxSingle.add_route cxRouteB).2

deriving instance DecidableEq for Except

/-- Models `Regex::new` + `is_match` of the external regex crate for the
patterns occurring in this development: compiling the anchored pattern
`"^($"` fails, as `Regex::new` rejects an unbalanced group; every other
pattern behaves as an anchored literal, matching exactly the string whose
anchored form equals the pattern. -/
def regexStub : String → Option (String → Bool) :=
  fun pattern =>
    if pattern = "^($" then none
    else some (fun s => "^" ++ s ++ "$" = pattern)

/-- A route whose stored path `"("` is an invalid regular expression. -/
def cxBadRoute : Route :=
  Route.build "r1" "bad" ["GET"] ["("]
    (UpstreamStrategy.AlwaysFirst [Upstream.build_from_fqdn "u1"])

/-- The context holding just `cxBadRoute`, built through `add_route`. -/
def cxBad : Context := (Context.build_empty.add_route cxBadRoute).2

/-! ### Upstream-string conversion
(`src/infrastructure/serializable_model.rs`; claim C8) -/

/-- Split a character list at every occurrence of `sep`; the pieces do not
contain `sep`.  Used to model the shape `o.o.o.o(:port)*` recognised by
`IPV4_REGEX`. -/
def splitOnChar (sep : Char) : List Char → List (List Char)
  | [] => [[]]
  | c :: rest =>
    let r := splitOnChar sep rest
    if c = sep then [] :: r
    else
      match r with
      | [] => [[c]]
      | h :: t => (c :: h) :: t

/-- The octet character class of `IPV4_REGEX`:
`\d|[1-9]\d|1\d\d|2[0-4]\d|25[0-5]` (0–255, no leading zero). -/
def isOctetChars : List Char → Bool
  | [c] => c.isDigit
  | [c₁, c₂] => ('1' ≤ c₁ && c₁ ≤ '9') && c₂.isDigit
  | [c₁, c₂, c₃] =>
    (c₁ = '1' && c₂.isDigit && c₃.isDigit)
    || (c₁ = '2' && ('0' ≤ c₂ && c₂ ≤ '4') && c₃.isDigit)
    || (c₁ = '2' && c₂ = '5' && ('0' ≤ c₃ && c₃ ≤ '5'))
  | _ => false

/-- The port character class of `IPV4_REGEX`:
`0|[1-9][0-9]{0,3}|[1-5][0-9]{4}|6[0-4][0-9]{3}|65[0-4][0-9]{2}|655[0-2][0-9]|6553[0-5]`
(0–65535, no leading zero). -/
def isPortChars : List Char → Bool
  | [c₁] => c₁.isDigit
  | [c₁, c₂] => ('1' ≤ c₁ && c₁ ≤ '9') && c₂.isDigit
  | [c₁, c₂, c₃] => ('1' ≤ c₁ && c₁ ≤ '9') && c₂.isDigit && c₃.isDigit
  | [c₁, c₂, c₃, c₄] =>
    ('1' ≤ c₁ && c₁ ≤ '9') && c₂.isDigit && c₃.isDigit && c₄.isDigit
  | [c₁, c₂, c₃, c₄, c₅] =>
    (('1' ≤ c₁ && c₁ ≤ '5') && c₂.isDigit && c₃.isDigit && c₄.isDigit && c₅.isDigit)
    || (c₁ = '6' && ('0' ≤ c₂ && c₂ ≤ '4') && c₃.isDigit && c₄.isDigit && c₅.isDigit)
    || (c₁ = '6' && c₂ = '5' && ('0' ≤ c₃ && c₃ ≤ '4') && c₄.isDigit && c₅.isDigit)
    || (c₁ = '6' && c₂ = '5' && c₃ = '5' && ('0' ≤ c₄ && c₄ ≤ '2') && c₅.isDigit)
    || (c₁ = '6' && c₂ = '5' && c₃ = '5' && c₄ = '3' && ('0' ≤ c₅ && c₅ ≤ '5'))
  | _ => false

/-- Decimal value of a digit list, most significant digit first. -/
def digitsVal (l : List Char) : Nat :=
  l.foldl (fun n c => n * 10 + (c.toNat - Char.toNat '0')) 0

/-- Models `u8::from_str` / `u16::from_str` on the digit groups captured
by the regex: a non-empty all-digit string parses to its decimal value
(the octet/port character classes keep every captured value within the
target type's range, so no overflow case arises). -/
def from_str_nat (l : List Char) : Option Nat :=
  if !l.isEmpty && l.all Char.isDigit then some (digitsVal l) else none

/-- Models `regex.captures(upstream)` for `IPV4_REGEX`
(serializable_model.rs:7).  `none` when the string does not match; on a
match, the seven capture groups `[whole, o1, o2, o3, o4, g5, g6]` where
`g5` is the last `":port"` repetition and `g6` the port digits (both
`none` when no port suffix is present; the regex's starred group reports
its last repetition). -/
def ipv4Captures (s : List Char) : Option (List (Option (List Char))) :=
  match splitOnChar ':' s with
  | [] => none
  | a :: ports =>
    match splitOnChar '.' a with
    | [o₁, o₂, o₃, o₄] =>
      if isOctetChars o₁ && isOctetChars o₂ && isOctetChars o₃ && isOctetChars o₄
          && ports.all isPortChars then
        match ports.getLast? with
        | none => some [some s, some o₁, some o₂, some o₃, some o₄, none, none]
        | some p =>
          some [some s, some o₁, some o₂, some o₃, some o₄, some (':' :: p), some p]
      else none
    | _ => none

/-- Embeds `parts[i]` on `regex::Captures`: group `i`, `none` when unmatched. -/
def capGet (caps : List (Option (List Char))) (i : Nat) : Option (List Char) :=
  caps.getD i none

/-- Embeds `upstream_str_to_tuple` (serializable_model.rs:74-95): parse octets
from groups 1–4, count the `Some` capture groups (`group_counter`); 5
groups means no port suffix, so port 80; otherwise the port is parsed
from group 6.  A `none` result models the source's `unwrap` panics, never
hit on actual captures. -/
def upstream_str_to_tuple (caps : List (Option (List Char))) :
    Option (Nat × Nat × Nat × Nat × Nat) :=
  match (capGet caps 1).bind from_str_nat, (capGet caps 2).bind from_str_nat,
      (capGet caps 3).bind from_str_nat, (capGet caps 4).bind from_str_nat with
  | some o₁, some o₂, some o₃, some o₄ =>
    let group_counter := caps.countP (fun p => p.isSome)
    if group_counter = 5 then some (o₁, o₂, o₃, o₄, 80)
    else
      match (capGet caps 6).bind from_str_nat with
      | some port => some (o₁, o₂, o₃, o₄, port)
      | none => none
  | _, _, _, _ => none

/-- The per-upstream-string step of `From<Route> for core::Route`
(serializable_model.rs:43-51): an `IPV4_REGEX`-matching string becomes a
structured IPv4 upstream via `upstream_str_to_tuple`, any other string an
FQDN upstream. -/
def upstreamOfString (u : List Char) : Option Upstream :=
  match ipv4Captures u with
  | some caps => (upstream_str_to_tuple caps).map Upstream.build_from_ipv4
  | none => some (Upstream.build_from_fqdn (String.mk u))

/-! ### Theorems -/

theorem hmGet_hmInsert_self {α β : Type} [DecidableEq α]
    (m : List (α × β)) (k : α) (v : β) : hmGet (hmInsert m k v) k = some v := by
  induction m with
  | nil => simp [hmInsert, hmGet]
  | cons kv rest ih =>
    obtain ⟨k₁, v₁⟩ := kv
    by_cases h : k₁ = k
    · simp [hmInsert, h, hmGet]
    · simp [hmInsert, h, hmGet, ih]

theorem hmGet_hmInsert_ne {α β : Type} [DecidableEq α]
    (m : List (α × β)) (k a : α) (v : β) (h : a ≠ k) :
    hmGet (hmInsert m k v) a = hmGet m a := by
  have hka : ¬ k = a := fun hh => h hh.symm
  induction m with
  | nil => simp [hmInsert, hmGet, hka]
  | cons kv rest ih =>
    obtain ⟨k₁, v₁⟩ := kv
    by_cases h₁ : k₁ = k
    · simp [hmInsert, h₁, hmGet, hka]
    · by_cases h₂ : k₁ = a
      · simp [hmInsert, h₁, hmGet, h₂, h]
      · simp [hmInsert, h₁, hmGet, h₂, ih]

theorem roundRobinLoop_enabled (ups : List Upstream) (i fuel : Nat) (u : Upstream)
    (hget : ups[i]? = some u) (hen : u.enabled = true) (hf : fuel ≠ 0) :
    roundRobinLoop ups i fuel = (some u, (i + 1) % ups.length) := by
  cases fuel with
  | zero => exact absurd rfl hf
  | succ f => simp [roundRobinLoop, hget, hen]

theorem next_rr_enabled (ups : List Upstream) (i : Nat)
    (hi : i < ups.length) (he : ∀ u ∈ ups, u.enabled = true) :
    (UpstreamStrategy.RoundRobin ups i).next
      = (some ups[i], UpstreamStrategy.RoundRobin ups ((i + 1) % ups.length)) := by
  have hget : ups[i]? = some ups[i] := List.getElem?_eq_getElem hi
  have hen : ups[i].enabled = true := he _ (List.getElem_mem hi)
  have hloop := roundRobinLoop_enabled ups i ups.length ups[i] hget hen (by omega)
  simp [UpstreamStrategy.next, hloop]

theorem nextRun_rr_all_enabled (ups : List Upstream)
    (he : ∀ u ∈ ups, u.enabled = true) :
    ∀ (n i : Nat), i < ups.length →
      nextRun (UpstreamStrategy.RoundRobin ups i) n
        = ((List.range n).map (fun k => ups[(i + k) % ups.length]?),
           UpstreamStrategy.RoundRobin ups ((i + n) % ups.length)) := by
  intro n
  induction n with
  | zero =>
    intro i hi
    simp [nextRun, Nat.mod_eq_of_lt hi]
  | succ n ih =>
    intro i hi
    have hlen : 0 < ups.length := by omega
    have h1 : (i + 1) % ups.length < ups.length := Nat.mod_lt _ hlen
    have hstep := next_rr_enabled ups i hi he
    simp only [nextRun, hstep, ih _ h1]
    refine Prod.ext ?_ ?_
    · show (some ups[i]) :: (List.range n).map
          (fun k => ups[((i + 1) % ups.length + k) % ups.length]?)
        = (List.range (n + 1)).map (fun k => ups[(i + k) % ups.length]?)
      rw [List.range_succ_eq_map, List.map_cons, List.map_map]
      refine congrArg₂ _ ?_ ?_
      · rw [Nat.add_zero, Nat.mod_eq_of_lt hi, List.getElem?_eq_getElem hi]
      · refine List.map_congr_left ?_
        intro k _
        show ups[((i + 1) % ups.length + k) % ups.length]? = ups[(i + (k + 1)) % ups.length]?
        rw [Nat.mod_add_mod]
        refine congrArg _ (congrArg₂ _ ?_ rfl)
        omega
    · show UpstreamStrategy.RoundRobin ups (((i + 1) % ups.length + n) % ups.length)
        = UpstreamStrategy.RoundRobin ups ((i + (n + 1)) % ups.length)
      rw [Nat.mod_add_mod]
      refine congrArg _ (congrArg₂ _ ?_ rfl)
      omega

/-- C1: the spec claims `RoundRobin::next` advances past disabled entries
and returns `none` only when all upstreams are disabled; in particular,
after disabling one of two upstreams mid-rotation every subsequent call
should return the remaining enabled one.  The code disagrees: the loop in
`UpstreamStrategy::next` (src/modules/core.rs:682-707) never advances
`next_index` when the entry at `next_index` is disabled — it re-checks the
same index `len` times and gives up.  Evaluating the embedded code at the
failing input: after one full rotation over `["a:1", "b:2"]` and then
`disable_upstream("a:1")`, three subsequent `next` calls all return `none`
even though `"b:2"` is still enabled. -/
theorem roundRobin_next_stuck_on_disabled :
    (nextRun
        ((nextRun (UpstreamStrategy.RoundRobin
            [Upstream.build_from_fqdn "a:1", Upstream.build_from_fqdn "b:2"] 0) 2).2.disable_upstream
          (UpstreamAddress.FQDN "a:1"))
        3).1 = [none, none, none]
    ∧ ((nextRun (UpstreamStrategy.RoundRobin
            [Upstream.build_from_fqdn "a:1", Upstream.build_from_fqdn "b:2"] 0) 2).2.disable_upstream
          (UpstreamAddress.FQDN "a:1")).get_upstreams.any (fun u => u.enabled) = true := by
  decide

/-- C7: for a `RoundRobin` strategy over `n` upstreams that are all
enabled (with the rotation index in range), `n` successive `next()` calls
return each upstream exactly once, cycling in declaration order starting
from `next_index`: the outputs are exactly `ups.rotate next_index`, which
is a permutation of the upstream list. -/
theorem roundRobin_rotation (ups : List Upstream) (i : Nat)
    (he : ∀ u ∈ ups, u.enabled = true) (hi : i < ups.length) :
    (nextRun (UpstreamStrategy.RoundRobin ups i) ups.length).1
        = (ups.rotate i).map some
    ∧ ((nextRun (UpstreamStrategy.RoundRobin ups i) ups.length).1).Perm
        (ups.map some) := by
  have hmain := nextRun_rr_all_enabled ups he ups.length i hi
  have h1 : (nextRun (UpstreamStrategy.RoundRobin ups i) ups.length).1
      = (List.range ups.length).map (fun k => ups[(i + k) % ups.length]?) := by
    rw [hmain]
  have hrot : (List.range ups.length).map (fun k => ups[(i + k) % ups.length]?)
      = (ups.rotate i).map some := by
    apply List.ext_getElem
    · simp
    · intro k hk1 hk2
      simp only [List.getElem_map, List.getElem_range, List.getElem_rotate]
      have hklen : k < ups.length := by simpa using hk1
      have hmod : (k + i) % ups.length < ups.length := Nat.mod_lt _ (by omega)
      rw [Nat.add_comm i k, List.getElem?_eq_getElem hmod]
  refine ⟨by rw [h1, hrot], ?_⟩
  rw [h1, hrot]
  exact List.Perm.map some (List.rotate_perm ups i)

/-- Witness for C7 at a concrete input: three enabled upstreams, rotation
index 1. -/
theorem roundRobin_rotation_witness :
    (nextRun (UpstreamStrategy.RoundRobin
        [Upstream.build_from_fqdn "a", Upstream.build_from_fqdn "b",
         Upstream.build_from_fqdn "c"] 1) 3).1
      = ([Upstream.build_from_fqdn "a", Upstream.build_from_fqdn "b",
          Upstream.build_from_fqdn "c"].rotate 1).map some
    ∧ ((nextRun (UpstreamStrategy.RoundRobin
        [Upstream.build_from_fqdn "a", Upstream.build_from_fqdn "b",
         Upstream.build_from_fqdn "c"] 1) 3).1).Perm
        ([Upstream.build_from_fqdn "a", Upstream.build_from_fqdn "b",
          Upstream.build_from_fqdn "c"].map some) :=
  roundRobin_rotation
    [Upstream.build_from_fqdn "a", Upstream.build_from_fqdn "b",
     Upstream.build_from_fqdn "c"] 1 (by decide) (by decide)

/-- C2: the spec mandates that a success tick while `Up` resets
`current_error_count` to 0, so that sparse failures separated by successes
never trip the transition to `Down`.  The source does not reset: evaluating
the embedded `Poller` with thresholds `(2, 2)`, after the non-consecutive
tick sequence failure, success, failure the error counter was never reset
(after failure, success it still holds 1) and the upstream ends up
disabled, although at no point did 2 consecutive failures occur. -/
theorem poller_sparse_failures_trip :
    ((Poller.build 2 2).run [ProbeTick.failure, ProbeTick.success]).current_error_count = 1
    ∧ ((Poller.build 2 2).run
        [ProbeTick.failure, ProbeTick.success, ProbeTick.failure]).upstream_enabled = false := by
  decide

theorem pollerInv_tick (E S : Nat) (p : Poller) (t : ProbeTick)
    (h : PollerInv E S p) : PollerInv E S (p.tick t).2 := by
  obtain ⟨hE, hS, he, hs⟩ := h
  subst hE
  subst hS
  cases t with
  | success =>
    by_cases hu : p.upstream_enabled
    · simpa [Poller.tick, Poller.check_and_enable_upstream, hu] using ⟨rfl, rfl, he, hs⟩
    · by_cases hc : p.current_success_count + 1 = p.success_count <;>
        refine ⟨?_, ?_, ?_, ?_⟩ <;>
          simp [Poller.tick, Poller.check_and_enable_upstream, hu, hc] <;> omega
  | failure =>
    by_cases hu : p.upstream_enabled
    · by_cases hc : p.current_error_count + 1 = p.error_count <;>
        refine ⟨?_, ?_, ?_, ?_⟩ <;>
          simp [Poller.tick, Poller.check_and_disable_upstream, hu, hc] <;> omega
    · simpa [Poller.tick, Poller.check_and_disable_upstream, hu] using ⟨rfl, rfl, he, hs⟩

theorem pollerInv_run (E S : Nat) (p : Poller) (ticks : List ProbeTick)
    (h : PollerInv E S p) : PollerInv E S (p.run ticks) := by
  induction ticks generalizing p with
  | nil => simpa [Poller.run] using h
  | cons t rest ih =>
    show PollerInv E S (((p.tick t).2).run rest)
    exact ih _ (pollerInv_tick E S p t h)

/-- C9: for every `Poller` built with thresholds `error_count ≥ 1` and
`success_count ≥ 1`, after any sequence of `check_and_enable_upstream` /
`check_and_disable_upstream` calls both running counters stay strictly
below their thresholds; moreover `current_error_count` is only ever
touched while `upstream_enabled` is true (a failure tick on a disabled
upstream and any success tick leave it unchanged) and
`current_success_count` is only ever touched while it is false. -/
theorem poller_counter_invariant (E S : Nat) (hE : 1 ≤ E) (hS : 1 ≤ S) :
    (∀ ticks : List ProbeTick,
        ((Poller.build E S).run ticks).current_error_count < E
        ∧ ((Poller.build E S).run ticks).current_success_count < S)
    ∧ (∀ p : Poller, p.upstream_enabled = false →
        ((p.check_and_disable_upstream).2.current_error_count = p.current_error_count))
    ∧ (∀ p : Poller,
        ((p.check_and_enable_upstream).2.current_error_count = p.current_error_count))
    ∧ (∀ p : Poller, p.upstream_enabled = true →
        ((p.check_and_enable_upstream).2.current_success_count = p.current_success_count))
    ∧ (∀ p : Poller,
        ((p.check_and_disable_upstream).2.current_success_count = p.current_success_count)) := by
  refine ⟨?_, ?_, ?_, ?_, ?_⟩
  · intro ticks
    have h0 : PollerInv E S (Poller.build E S) := by
      refine ⟨rfl, rfl, ?_, ?_⟩ <;> simpa [Poller.build]
    have h := pollerInv_run E S (Poller.build E S) ticks h0
    exact ⟨h.2.2.1, h.2.2.2⟩
  · intro p hp
    simp [Poller.check_and_disable_upstream, hp]
  · intro p
    by_cases hu : p.upstream_enabled
    · simp [Poller.check_and_enable_upstream, hu]
    · by_cases hc : p.current_success_count + 1 = p.success_count <;>
        simp [Poller.check_and_enable_upstream, hu, hc]
  · intro p hp
    simp [Poller.check_and_enable_upstream, hp]
  · intro p
    by_cases hu : p.upstream_enabled
    · by_cases hc : p.current_error_count + 1 = p.error_count <;>
        simp [Poller.check_and_disable_upstream, hu, hc]
    · simp [Poller.check_and_disable_upstream, hu]

/-- Witness for C9 at thresholds `(2, 3)` and a concrete tick sequence and
poller state. -/
theorem poller_counter_invariant_witness :
    (((Poller.build 2 3).run [ProbeTick.failure, ProbeTick.success]).current_error_count < 2
      ∧ ((Poller.build 2 3).run [ProbeTick.failure, ProbeTick.success]).current_success_count < 3)
    ∧ ((Poller.build 2 3).check_and_enable_upstream).2.current_error_count
        = (Poller.build 2 3).current_error_count :=
  ⟨(poller_counter_invariant 2 3 (by decide) (by decide)).1
      [ProbeTick.failure, ProbeTick.success],
   (poller_counter_invariant 2 3 (by decide) (by decide)).2.2.1 (Poller.build 2 3)⟩

/-- C10: `count_request` increments the counter for exactly its key by 1
(creating it with value 1 when absent, since the old value defaults to 0)
and leaves every other entry unchanged; consequently every counter value
is monotonically non-decreasing and no key is ever removed.  `get_all`
returns one tuple per stored entry and, being read-only in the source,
does not modify the table. -/
theorem stats_count_request_frame (st : Stats) (client method path upstream : String)
    (k₁ : String × String × String × String)
    (hne : k₁ ≠ (client, method, path, upstream)) :
    hmGet (st.count_request client method path upstream).counter
        (client, method, path, upstream)
      = some ((hmGet st.counter (client, method, path, upstream)).getD 0 + 1)
    ∧ hmGet (st.count_request client method path upstream).counter k₁
      = hmGet st.counter k₁
    ∧ (∀ k₂, (hmGet st.counter k₂).getD 0
        ≤ (hmGet (st.count_request client method path upstream).counter k₂).getD 0)
    ∧ (st.get_all).length = st.counter.length
    ∧ (∀ t, t ∈ st.get_all ↔ ∃ entry ∈ st.counter,
        t = (entry.1.1, entry.1.2.1, entry.1.2.2.1, entry.1.2.2.2, entry.2)) := by
  refine ⟨?_, ?_, ?_, ?_, ?_⟩
  · simp only [Stats.count_request]
    exact hmGet_hmInsert_self st.counter _ _
  · simp only [Stats.count_request]
    exact hmGet_hmInsert_ne st.counter _ k₁ _ hne
  · intro k₂
    simp only [Stats.count_request]
    by_cases hk : k₂ = (client, method, path, upstream)
    · rw [hk, hmGet_hmInsert_self]
      simp
    · rw [hmGet_hmInsert_ne st.counter _ k₂ _ hk]
  · simp [Stats.get_all]
  · intro t
    simp only [Stats.get_all, List.mem_map]
    constructor
    · rintro ⟨entry, hmem, hEq⟩
      exact ⟨entry, hmem, hEq.symm⟩
    · rintro ⟨entry, hmem, hEq⟩
      exact ⟨entry, hmem, hEq.symm⟩

/-- Witness for C10 on a concrete stats table. -/
theorem stats_count_request_frame_witness :
    hmGet ((Stats.build.count_request "1.2.3.4" "GET" "/x" "a:1").count_request
        "1.2.3.4" "GET" "/x" "a:1").counter ("1.2.3.4", "GET", "/x", "a:1")
      = some ((hmGet (Stats.build.count_request "1.2.3.4" "GET" "/x" "a:1").counter
          ("1.2.3.4", "GET", "/x", "a:1")).getD 0 + 1)
    ∧ hmGet ((Stats.build.count_request "1.2.3.4" "GET" "/x" "a:1").count_request
        "1.2.3.4" "GET" "/x" "a:1").counter ("5.6.7.8", "GET", "/x", "a:1")
      = hmGet (Stats.build.count_request "1.2.3.4" "GET" "/x" "a:1").counter
          ("5.6.7.8", "GET", "/x", "a:1") :=
  ⟨(stats_count_request_frame (Stats.build.count_request "1.2.3.4" "GET" "/x" "a:1")
      "1.2.3.4" "GET" "/x" "a:1" ("5.6.7.8", "GET", "/x", "a:1") (by decide)).1,
   (stats_count_request_frame (Stats.build.count_request "1.2.3.4" "GET" "/x" "a:1")
      "1.2.3.4" "GET" "/x" "a:1" ("5.6.7.8", "GET", "/x", "a:1") (by decide)).2.1⟩

theorem hmGet_insAll_const {K : Type} [DecidableEq K]
    (kvs : List (K × Nat)) (idx : Nat) (hval : ∀ kv ∈ kvs, kv.2 = idx)
    (m : List (K × Nat)) (a : K) :
    hmGet (insAll m kvs) a
      = if kvs.any (fun kv => kv.1 = a) then some idx else hmGet m a := by
  induction kvs generalizing m with
  | nil => simp [insAll]
  | cons kv rest ih =>
    have hkv : kv.2 = idx := hval kv (by simp)
    have hrest : ∀ kv₂ ∈ rest, kv₂.2 = idx := fun kv₂ h₂ => hval kv₂ (by simp [h₂])
    show hmGet (insAll (hmInsert m kv.1 kv.2) rest) a = _
    rw [ih hrest]
    by_cases hr : rest.any (fun kv₂ => kv₂.1 = a)
    · simp [hr, List.any_cons]
    · by_cases hk : kv.1 = a
      · rw [hkv, hk]
        simp [hr, hk, List.any_cons, hmGet_hmInsert_self]
      · have hne : a ≠ kv.1 := fun hh => hk hh.symm
        simp [hr, hk, List.any_cons, hmGet_hmInsert_ne m kv.1 a kv.2 hne]

theorem hmGet_buildTable {K : Type} [DecidableEq K] (f : Route → List K)
    (routes : List Route) (idx : Nat) (m : List (K × Nat)) (k : K) :
    hmGet (buildTable f routes idx m) k
      = match lastKeyIdx f routes idx k with
        | some j => some j
        | none => hmGet m k := by
  induction routes generalizing idx m with
  | nil => simp [buildTable, lastKeyIdx]
  | cons r rest ih =>
    show hmGet (buildTable f rest (idx + 1) (insAll m ((f r).map (fun key => (key, idx))))) k = _
    rw [ih]
    have hconst : ∀ kv ∈ (f r).map (fun key => (key, idx)), kv.2 = idx := by simp
    rw [hmGet_insAll_const _ idx hconst]
    cases hl : lastKeyIdx f rest (idx + 1) k with
    | some j => simp [lastKeyIdx, hl]
    | none =>
      simp only [lastKeyIdx, hl]
      by_cases hm : k ∈ f r
      · have hany : ((f r).map (fun key => (key, idx))).any (fun kv => kv.1 = k) = true := by
          rw [List.any_eq_true]
          exact ⟨(k, idx), List.mem_map_of_mem _ hm, by simp⟩
        simp [hany, hm]
      · have hany : ((f r).map (fun key => (key, idx))).any (fun kv => kv.1 = k) = false := by
          rw [List.any_eq_false]
          intro kv hkv
          obtain ⟨key, hkey, rfl⟩ := List.mem_map.mp hkv
          intro hEq
          apply hm
          have hkk : key = k := by simpa using hEq
          exact hkk ▸ hkey
        simp [hany, hm]

theorem lastKeyIdx_shift {K : Type} [DecidableEq K] (f : Route → List K)
    (routes : List Route) (idx : Nat) (k : K) :
    lastKeyIdx f routes idx k = (lastKeyIdx f routes 0 k).map (fun j => j + idx) := by
  induction routes generalizing idx with
  | nil => simp [lastKeyIdx]
  | cons r rest ih =>
    show (match lastKeyIdx f rest (idx + 1) k with
          | some j => some j
          | none => if k ∈ f r then some idx else none) = _
    rw [show lastKeyIdx f (r :: rest) 0 k
          = (match lastKeyIdx f rest 1 k with
             | some j => some j
             | none => if k ∈ f r then some 0 else none) from rfl]
    rw [ih (idx + 1), ih 1]
    cases lastKeyIdx f rest 0 k with
    | some j =>
      show some (j + (idx + 1)) = some (j + 1 + idx)
      refine congrArg _ ?_
      omega
    | none =>
      by_cases hm : k ∈ f r <;> simp [hm]

theorem lastKeyIdx_cons_zero {K : Type} [DecidableEq K] (f : Route → List K)
    (r : Route) (rest : List Route) (k : K) :
    lastKeyIdx f (r :: rest) 0 k
      = match (lastKeyIdx f rest 0 k).map (fun j => j + 1) with
        | some j => some j
        | none => if k ∈ f r then some 0 else none := by
  show (match lastKeyIdx f rest 1 k with
        | some j => some j
        | none => if k ∈ f r then some 0 else none) = _
  rw [lastKeyIdx_shift f rest 1 k]

theorem lastKeyIdx_zero_none {K : Type} [DecidableEq K] (f : Route → List K)
    (routes : List Route) (k : K) :
    lastKeyIdx f routes 0 k = none
      ↔ ∀ (j : Nat) (hj : j < routes.length), k ∉ f (routes.get ⟨j, hj⟩) := by
  induction routes with
  | nil => simp [lastKeyIdx]
  | cons r rest ih =>
    rw [lastKeyIdx_cons_zero]
    cases hl : lastKeyIdx f rest 0 k with
    | some j =>
      constructor
      · intro h
        have h₂ : (some (j + 1) : Option Nat) = none := h
        exact Option.noConfusion h₂
      · intro hall
        have hrest : ∀ (j₂ : Nat) (hj₂ : j₂ < rest.length), k ∉ f (rest.get ⟨j₂, hj₂⟩) :=
          fun j₂ hj₂ => hall (j₂ + 1) (by simpa using Nat.succ_lt_succ hj₂)
        rw [ih.mpr hrest] at hl
        exact Option.noConfusion hl
    | none =>
      by_cases hm : k ∈ f r
      · constructor
        · intro h
          have h₂ : (if k ∈ f r then some 0 else none) = (none : Option Nat) := h
          rw [if_pos hm] at h₂
          exact Option.noConfusion h₂
        · intro hall
          exact absurd hm (hall 0 (by simp))
      · constructor
        · intro _ j hj
          cases j with
          | zero => simpa using hm
          | succ j₂ =>
            have hj₂ : j₂ < rest.length := by simpa using hj
            exact ih.mp hl j₂ hj₂
        · intro _
          show (if k ∈ f r then some 0 else none) = (none : Option Nat)
          rw [if_neg hm]

theorem lastMatch_unique {K : Type} [DecidableEq K] (f : Route → List K)
    (routes : List Route) (k : K) (i₁ i₂ : Nat)
    (h₁i : i₁ < routes.length) (h₁m : k ∈ f (routes.get ⟨i₁, h₁i⟩))
    (h₁l : ∀ (j : Nat) (hj : j < routes.length), i₁ < j → k ∉ f (routes.get ⟨j, hj⟩))
    (h₂i : i₂ < routes.length) (h₂m : k ∈ f (routes.get ⟨i₂, h₂i⟩))
    (h₂l : ∀ (j : Nat) (hj : j < routes.length), i₂ < j → k ∉ f (routes.get ⟨j, hj⟩)) :
    i₁ = i₂ := by
  rcases Nat.lt_trichotomy i₁ i₂ with h | h | h
  · exact absurd h₂m (h₁l i₂ h₂i h)
  · exact h
  · exact absurd h₁m (h₂l i₁ h₁i h)

theorem lastKeyIdx_zero_some {K : Type} [DecidableEq K] (f : Route → List K)
    (routes : List Route) (k : K) (i : Nat) :
    lastKeyIdx f routes 0 k = some i
      ↔ ∃ hi : i < routes.length, k ∈ f (routes.get ⟨i, hi⟩)
          ∧ ∀ (j : Nat) (hj : j < routes.length), i < j → k ∉ f (routes.get ⟨j, hj⟩) := by
  induction routes generalizing i with
  | nil => simp [lastKeyIdx]
  | cons r rest ih =>
    rw [lastKeyIdx_cons_zero]
    cases hl : lastKeyIdx f rest 0 k with
    | some j =>
      obtain ⟨hj, hmem, hlast⟩ := (ih j).mp hl
      have hspec : ∃ hi : j + 1 < (r :: rest).length,
          k ∈ f ((r :: rest).get ⟨j + 1, hi⟩)
          ∧ ∀ (j₂ : Nat) (hj₂ : j₂ < (r :: rest).length), j + 1 < j₂ →
              k ∉ f ((r :: rest).get ⟨j₂, hj₂⟩) := by
        refine ⟨by simpa using Nat.succ_lt_succ hj, hmem, ?_⟩
        intro j₂ hj₂ hgt
        cases j₂ with
        | zero => omega
        | succ j₃ =>
          exact hlast j₃ (by simpa using hj₂) (by omega)
      constructor
      · intro h
        have h₂ : (some (j + 1) : Option Nat) = some i := h
        have hEq : j + 1 = i := Option.some.inj h₂
        exact hEq ▸ hspec
      · rintro ⟨hi, hmem₂, hlast₂⟩
        obtain ⟨hi₁, hmem₁, hlast₁⟩ := hspec
        have hEq : j + 1 = i :=
          lastMatch_unique f (r :: rest) k (j + 1) i hi₁ hmem₁ hlast₁ hi hmem₂ hlast₂
        show (some (j + 1) : Option Nat) = some i
        exact congrArg _ hEq
    | none =>
      have hnone := (lastKeyIdx_zero_none f rest k).mp hl
      by_cases hm : k ∈ f r
      · constructor
        · intro h
          have h₂ : (if k ∈ f r then some 0 else none) = some i := h
          rw [if_pos hm] at h₂
          have hEq : 0 = i := Option.some.inj h₂
          refine hEq ▸ ⟨by simp, hm, ?_⟩
          intro j₂ hj₂ hgt
          cases j₂ with
          | zero => omega
          | succ j₃ => exact hnone j₃ (by simpa using hj₂)
        · rintro ⟨hi, hmem₂, hlast₂⟩
          cases i with
          | zero =>
            show (if k ∈ f r then some 0 else none) = some 0
            rw [if_pos hm]
          | succ j₃ => exact absurd hmem₂ (hnone j₃ (by simpa using hi))
      · constructor
        · intro h
          have h₂ : (if k ∈ f r then some 0 else none) = some i := h
          rw [if_neg hm] at h₂
          exact Option.noConfusion h₂
        · rintro ⟨hi, hmem₂, _⟩
          cases i with
          | zero => exact absurd (show k ∈ f r from hmem₂) hm
          | succ j₃ => exact absurd hmem₂ (hnone j₃ (by simpa using hi))

theorem reachable_wf (c : Context) (h : Reachable c) : ContextWF c := by
  induction h with
  | empty => exact ⟨rfl, rfl⟩
  | add c r c₂ _ heq _ =>
    rw [Context.add_route] at heq
    by_cases hc : hmContains c.route_index r.id
    · simp [hc] at heq
    · simp only [hc, Bool.not_false, if_true] at heq
      have hc₂ : c₂ = c.do_add_route r := (Prod.mk.injEq _ _ _ _ ▸ heq).2.symm
      rw [hc₂]
      exact ⟨rfl, rfl⟩
  | remove c rid r c₂ _ heq _ =>
    rw [Context.remove_route] at heq
    cases hg : hmGet c.route_index rid with
    | some route_index =>
      rw [hg] at heq
      have hc₂ : c₂ = (c.do_remove_route route_index).2 :=
        (Prod.mk.injEq _ _ _ _ ▸ heq).2.symm
      rw [hc₂]
      exact ⟨rfl, rfl⟩
    | none =>
      rw [hg] at heq
      have : (Except.error CoreError.RouteNotExists : Except CoreError (Option Route))
          = Except.ok r := (Prod.mk.injEq _ _ _ _ ▸ heq).1
      exact Except.noConfusion this

theorem hmGet_rebuild_routing_table (routes : List Route) (key : String × String) :
    hmGet (rebuild_routing_table_of routes) key
      = lastKeyIdx routeTableKeys routes 0 key := by
  rw [rebuild_routing_table_of, hmGet_buildTable]
  cases lastKeyIdx routeTableKeys routes 0 key <;> simp [hmGet]

theorem hmGet_rebuild_route_index (routes : List Route) (id : String) :
    hmGet (rebuild_route_index_of routes) id
      = lastKeyIdx (fun r => [r.id]) routes 0 id := by
  rw [rebuild_route_index_of, hmGet_buildTable]
  cases lastKeyIdx (fun r => [r.id]) routes 0 id <;> simp [hmGet]

theorem mem_routeTableKeys (r : Route) (p m : String) :
    ((p, m) ∈ routeTableKeys r) ↔ (p ∈ r.paths ∧ m ∈ r.methods) := by
  simp only [routeTableKeys, List.mem_flatMap, List.mem_map, Prod.mk.injEq]
  constructor
  · rintro ⟨path, hpath, method, hmethod, hp, hm⟩
    exact ⟨hp ▸ hpath, hm ▸ hmethod⟩
  · rintro ⟨hp, hm⟩
    exact ⟨p, hp, m, hm, rfl, rfl⟩

/-- C4 (amended): in every reachable context, the routing table maps
`(p, m)` to `i` iff route `i` lists the pair AND no route with a larger
index lists it — the rebuild loop's later inserts overwrite earlier ones,
so the table records the greatest matching index.  (When at most one
stored route lists the pair, this coincides with the claimed
biconditional.) -/
theorem routing_table_maps_last_matching (c : Context) (hr : Reachable c)
    (p m : String) (i : Nat) :
    hmGet c.routing_table (p, m) = some i
      ↔ ∃ hi : i < c.routes.length,
          (p ∈ (c.routes.get ⟨i, hi⟩).paths ∧ m ∈ (c.routes.get ⟨i, hi⟩).methods)
          ∧ ∀ (j : Nat) (hj : j < c.routes.length), i < j →
              ¬(p ∈ (c.routes.get ⟨j, hj⟩).paths ∧ m ∈ (c.routes.get ⟨j, hj⟩).methods) := by
  rw [(reachable_wf c hr).1, hmGet_rebuild_routing_table, lastKeyIdx_zero_some]
  constructor
  · rintro ⟨hi, hmem, hlast⟩
    exact ⟨hi, (mem_routeTableKeys _ p m).mp hmem,
      fun j hj hgt hc => hlast j hj hgt ((mem_routeTableKeys _ p m).mpr hc)⟩
  · rintro ⟨hi, hmem, hlast⟩
    exact ⟨hi, (mem_routeTableKeys _ p m).mpr hmem,
      fun j hj hgt hc => hlast j hj hgt ((mem_routeTableKeys _ p m).mp hc)⟩

/-- C4 counterexample: `cxDup` is reachable, its route 0 (`cxRouteA`)
lists `("/x", "GET")`, yet the routing table maps that pair to 1 (the
later duplicate), not 0 — the claimed biconditional fails at index 0 when
two stored routes list the same pair. -/
theorem routing_table_biconditional_fails :
    Reachable cxDup
    ∧ cxDup.routes[0]? = some cxRouteA
    ∧ ("/x" ∈ cxRouteA.paths ∧ "GET" ∈ cxRouteA.methods)
    ∧ hmGet cxDup.routing_table ("/x", "GET") = some 1
    ∧ hmGet cxDup.routing_table ("/x", "GET") ≠ some 0 := by
  refine ⟨?_, by decide, by decide, by decide, by decide⟩
  exact Reachable.add cxSingle cxRouteB cxDup
    (Reachable.add Context.build_empty cxRouteA cxSingle Reachable.empty rfl)
    rfl

/-- Witness for C4 (amended) at the concrete reachable context `cxSingle`. -/
theorem routing_table_maps_last_matching_witness :
    hmGet cxSingle.routing_table ("/x", "GET") = some 0
      ↔ ∃ hi : 0 < cxSingle.routes.length,
          ("/x" ∈ (cxSingle.routes.get ⟨0, hi⟩).paths
            ∧ "GET" ∈ (cxSingle.routes.get ⟨0, hi⟩).methods)
          ∧ ∀ (j : Nat) (hj : j < cxSingle.routes.length), 0 < j →
              ¬("/x" ∈ (cxSingle.routes.get ⟨j, hj⟩).paths
                ∧ "GET" ∈ (cxSingle.routes.get ⟨j, hj⟩).methods) :=
  routing_table_maps_last_matching cxSingle
    (Reachable.add Context.build_empty cxRouteA cxSingle Reachable.empty rfl)
    "/x" "GET" 0

theorem contains_rebuild_route_index (routes : List Route) (id : String) :
    hmContains (rebuild_route_index_of routes) id = true
      ↔ ∃ (j : Nat) (hj : j < routes.length), (routes.get ⟨j, hj⟩).id = id := by
  rw [hmContains, hmGet_rebuild_route_index]
  constructor
  · intro h
    cases hc : lastKeyIdx (fun r => [r.id]) routes 0 id with
    | none =>
      rw [hc] at h
      simp at h
    | some v =>
      obtain ⟨hv, hmem, _⟩ := (lastKeyIdx_zero_some (fun r => [r.id]) routes id v).mp hc
      exact ⟨v, hv, (List.mem_singleton.mp hmem).symm⟩
  · rintro ⟨j, hj, hEq⟩
    cases hc : lastKeyIdx (fun r => [r.id]) routes 0 id with
    | some v => simp
    | none =>
      have hnot := (lastKeyIdx_zero_none (fun r => [r.id]) routes id).mp hc j hj
      exact absurd (List.mem_singleton.mpr hEq.symm) hnot

/-- C5: in every reachable context, `add_route` with a route whose id is
already carried by some stored route returns `RouteAlreadyExists` and
returns the context unchanged; `remove_route` with an id carried by no
stored route returns `RouteNotExists` and returns the context unchanged. -/
theorem add_remove_error_unchanged :
    (∀ (c : Context) (r : Route), Reachable c →
        (∃ (j : Nat) (hj : j < c.routes.length), (c.routes.get ⟨j, hj⟩).id = r.id) →
        c.add_route r = (Except.error CoreError.RouteAlreadyExists, c))
    ∧ (∀ (c : Context) (rid : String), Reachable c →
        (∀ (j : Nat) (hj : j < c.routes.length), (c.routes.get ⟨j, hj⟩).id ≠ rid) →
        c.remove_route rid = (Except.error CoreError.RouteNotExists, c)) := by
  constructor
  · intro c r hr hex
    have hwf := reachable_wf c hr
    have hc : hmContains c.route_index r.id = true := by
      rw [hwf.2]
      exact (contains_rebuild_route_index c.routes r.id).mpr hex
    simp [Context.add_route, hc]
  · intro c rid hr hno
    have hwf := reachable_wf c hr
    have hg : hmGet c.route_index rid = none := by
      rw [hwf.2, hmGet_rebuild_route_index]
      apply (lastKeyIdx_zero_none _ c.routes rid).mpr
      intro j hj
      simp only [List.mem_singleton]
      exact fun hEq => hno j hj hEq.symm
    simp [Context.remove_route, hg]

/-- Witness for C5: duplicate add and missing remove on the concrete
reachable context `cxSingle`. -/
theorem add_remove_error_unchanged_witness :
    cxSingle.add_route cxRouteA = (Except.error CoreError.RouteAlreadyExists, cxSingle)
    ∧ cxSingle.remove_route "zzz" = (Except.error CoreError.RouteNotExists, cxSingle) :=
  ⟨add_remove_error_unchanged.1 cxSingle cxRouteA
      (Reachable.add Context.build_empty cxRouteA cxSingle Reachable.empty rfl)
      ⟨0, by decide, by decide⟩,
   add_remove_error_unchanged.2 cxSingle "zzz"
      (Reachable.add Context.build_empty cxRouteA cxSingle Reachable.empty rfl)
      (by decide)⟩

theorem eraseIdx_concat {α : Type} (l : List α) (a : α) :
    (l ++ [a]).eraseIdx l.length = l := by
  induction l with
  | nil => rfl
  | cons x xs ih =>
    show x :: ((xs ++ [a]).eraseIdx xs.length) = x :: xs
    rw [ih]

theorem route_index_lookup_concat (routes : List Route) (r : Route) :
    hmGet (rebuild_route_index_of (routes ++ [r])) r.id = some routes.length := by
  rw [hmGet_rebuild_route_index]
  apply (lastKeyIdx_zero_some (fun r => [r.id]) (routes ++ [r]) r.id routes.length).mpr
  have hlen : routes.length < (routes ++ [r]).length := by simp
  refine ⟨hlen, ?_, ?_⟩
  · have hg : (routes ++ [r]).get ⟨routes.length, hlen⟩ = r := by
      simp [List.getElem_concat_length]
    rw [hg]
    simp
  · intro j hj hgt
    have : (routes ++ [r]).length = routes.length + 1 := by simp
    omega

/-- C6: for every reachable context and every route whose id no stored
route carries, `add_route` succeeds and an immediate `remove_route` of
that id succeeds, returns the very route, and restores the context to
exactly its previous value — hence every observable (route list, both
indexes, and any accessor such as the deduplicated upstream set) is
restored. -/
theorem add_then_remove_roundtrip (c : Context) (r : Route) (hr : Reachable c)
    (hid : ∀ (j : Nat) (hj : j < c.routes.length), (c.routes.get ⟨j, hj⟩).id ≠ r.id) :
    c.add_route r = (Except.ok (), c.do_add_route r)
    ∧ (c.do_add_route r).remove_route r.id = (Except.ok (some r), c) := by
  have hwf := reachable_wf c hr
  have hnc : hmContains c.route_index r.id = false := by
    rw [hwf.2, hmContains, hmGet_rebuild_route_index,
      (lastKeyIdx_zero_none (fun r => [r.id]) c.routes r.id).mpr ?hno]
    · rfl
    case hno =>
      intro j hj
      simp only [List.mem_singleton]
      exact fun hEq => hid j hj hEq.symm
  constructor
  · simp [Context.add_route, hnc]
  · have hlook : hmGet (c.do_add_route r).route_index r.id = some c.routes.length :=
      route_index_lookup_concat c.routes r
    have hget : (c.do_add_route r).routes[c.routes.length]? = some r := by
      show (c.routes ++ [r])[c.routes.length]? = some r
      exact List.getElem?_concat_length c.routes r
    have herase : (c.do_add_route r).routes.eraseIdx c.routes.length = c.routes :=
      eraseIdx_concat c.routes r
    simp only [Context.remove_route, hlook, Context.do_remove_route]
    refine Prod.ext ?_ ?_
    · show Except.ok ((c.do_add_route r).routes[c.routes.length]?) = Except.ok (some r)
      rw [hget]
    · show (⟨(c.do_add_route r).routes.eraseIdx c.routes.length,
          rebuild_routing_table_of ((c.do_add_route r).routes.eraseIdx c.routes.length),
          rebuild_route_index_of ((c.do_add_route r).routes.eraseIdx c.routes.length)⟩
            : Context) = c
      rw [herase]
      obtain ⟨hrt, hri⟩ := hwf
      cases c with
      | mk routes routing_table route_index =>
        simp only at hrt hri
        rw [hrt, hri]

/-- Witness for C6: add `cxRouteB` to the concrete reachable context
`cxSingle` and remove it again. -/
theorem add_then_remove_roundtrip_witness :
    cxSingle.add_route cxRouteB = (Except.ok (), cxSingle.do_add_route cxRouteB)
    ∧ (cxSingle.do_add_route cxRouteB).remove_route cxRouteB.id
        = (Except.ok (some cxRouteB), cxSingle) :=
  add_then_remove_roundtrip cxSingle cxRouteB
    (Reachable.add Context.build_empty cxRouteA cxSingle Reachable.empty rfl)
    (by decide)

theorem find_route_index_ok (compile : String → Option (String → Bool))
    (c : Context) (path method : String) :
    ∃ o, c.find_route_index compile path method = Except.ok o :=
  ⟨_, rfl⟩

/-- C3 (amended): `upstream_lookup` can never fail — in particular it never
returns `CannotCreateRegexp`.  `find_route_index` wraps its whole result in
`Ok`: the regex fallback's compile error is discarded by `.ok()?` in the
source, flattening an invalid stored pattern into a lookup miss. -/
theorem upstream_lookup_never_errors (compile : String → Option (String → Bool))
    (c : Context) (path method : String) :
    ∃ r, (c.upstream_lookup compile path method).1 = Except.ok r := by
  obtain ⟨o, ho⟩ := find_route_index_ok compile c path method
  cases o with
  | none =>
    refine ⟨none, ?_⟩
    simp only [Context.upstream_lookup, ho]
  | some route_index =>
    cases hg : c.routes[route_index]? with
    | none =>
      refine ⟨none, ?_⟩
      simp only [Context.upstream_lookup, ho, hg]
    | some route =>
      refine ⟨(route.strategy.next).1, ?_⟩
      simp only [Context.upstream_lookup, ho, hg]

/-- C3 counterexample: the stored path `"("` anchors to the invalid regex
`"^($"` (compile fails), the lookup `("/x", "GET")` has no exact
routing-table match, so the fallback hits the invalid pattern — and the
lookup still returns a successful `none`, not the `CannotCreateRegexp`
error the claim requires. -/
theorem upstream_lookup_invalid_regex_is_miss :
    (regexStub (regexp_for "(")).isNone = true
    ∧ hmGet cxBad.routing_table ("/x", "GET") = none
    ∧ (cxBad.upstream_lookup regexStub "/x" "GET").1 = Except.ok none
    ∧ (cxBad.upstream_lookup regexStub "/x" "GET").1
        ≠ Except.error CoreError.CannotCreateRegexp := by
  refine ⟨by decide, by decide, by decide, by decide⟩

theorem mem_of_getLast_some {α : Type} (l : List α) (a : α)
    (h : l.getLast? = some a) : a ∈ l := by
  have hx : a ∈ l.getLast? := by rw [h]; rfl
  obtain ⟨hne, hEq⟩ := List.mem_getLast?_eq_getLast hx
  rw [hEq]
  exact List.getLast_mem hne

theorem char_range_isDigit (lo hi c : Char) (hlo : '0' ≤ lo) (hhi : hi ≤ '9')
    (h₁ : lo ≤ c) (h₂ : c ≤ hi) : c.isDigit = true := by
  have ha : '0' ≤ c := le_trans hlo h₁
  have hb : c ≤ '9' := le_trans h₂ hhi
  simp only [Char.isDigit]
  simp [Char.le_def] at ha hb ⊢
  exact ⟨ha, hb⟩

theorem isOctetChars_digits (l : List Char) (h : isOctetChars l = true) :
    (!l.isEmpty && l.all Char.isDigit) = true := by
  match l with
  | [] => simp [isOctetChars] at h
  | [c] =>
    simp only [isOctetChars] at h
    simp [List.all, h]
  | [c₁, c₂] =>
    simp only [isOctetChars, Bool.and_eq_true, decide_eq_true_eq] at h
    obtain ⟨⟨ha, hb⟩, hd⟩ := h
    have hd₁ : c₁.isDigit = true := char_range_isDigit '1' '9' c₁ (by decide) (by decide) ha hb
    simp [List.all, hd₁, hd]
  | [c₁, c₂, c₃] =>
    simp only [isOctetChars, Bool.or_eq_true, Bool.and_eq_true, decide_eq_true_eq] at h
    rcases h with (⟨⟨h₁, h₂⟩, h₃⟩ | ⟨⟨h₁, ha, hb⟩, h₄⟩) | ⟨⟨h₁, h₂⟩, ha, hb⟩
    · have hd₁ : c₁.isDigit = true := by rw [h₁]; decide
      simp [List.all, hd₁, h₂, h₃]
    · have hd₁ : c₁.isDigit = true := by rw [h₁]; decide
      have hd₂ : c₂.isDigit = true := char_range_isDigit '0' '4' c₂ (by decide) (by decide) ha hb
      simp [List.all, hd₁, hd₂, h₄]
    · have hd₁ : c₁.isDigit = true := by rw [h₁]; decide
      have hd₂ : c₂.isDigit = true := by rw [h₂]; decide
      have hd₃ : c₃.isDigit = true := char_range_isDigit '0' '5' c₃ (by decide) (by decide) ha hb
      simp [List.all, hd₁, hd₂, hd₃]
  | c₁ :: c₂ :: c₃ :: c₄ :: rest => simp [isOctetChars] at h

theorem isPortChars_digits (l : List Char) (h : isPortChars l = true) :
    (!l.isEmpty && l.all Char.isDigit) = true := by
  match l with
  | [] => simp [isPortChars] at h
  | [c] =>
    simp only [isPortChars] at h
    simp [List.all, h]
  | [c₁, c₂] =>
    simp only [isPortChars, Bool.and_eq_true, decide_eq_true_eq] at h
    obtain ⟨⟨ha, hb⟩, hd⟩ := h
    have hd₁ : c₁.isDigit = true := char_range_isDigit '1' '9' c₁ (by decide) (by decide) ha hb
    simp [List.all, hd₁, hd]
  | [c₁, c₂, c₃] =>
    simp only [isPortChars, Bool.and_eq_true, decide_eq_true_eq] at h
    obtain ⟨⟨⟨ha, hb⟩, hd₂⟩, hd₃⟩ := h
    have hd₁ : c₁.isDigit = true := char_range_isDigit '1' '9' c₁ (by decide) (by decide) ha hb
    simp [List.all, hd₁, hd₂, hd₃]
  | [c₁, c₂, c₃, c₄] =>
    simp only [isPortChars, Bool.and_eq_true, decide_eq_true_eq] at h
    obtain ⟨⟨⟨⟨ha, hb⟩, hd₂⟩, hd₃⟩, hd₄⟩ := h
    have hd₁ : c₁.isDigit = true := char_range_isDigit '1' '9' c₁ (by decide) (by decide) ha hb
    simp [List.all, hd₁, hd₂, hd₃, hd₄]
  | [c₁, c₂, c₃, c₄, c₅] =>
    simp only [isPortChars, Bool.or_eq_true, Bool.and_eq_true, decide_eq_true_eq] at h
    rcases h with (((⟨⟨⟨⟨⟨ha, hb⟩, h₂⟩, h₃⟩, h₄⟩, h₅⟩
      | ⟨⟨⟨⟨h₁, ha, hb⟩, h₃⟩, h₄⟩, h₅⟩)
      | ⟨⟨⟨⟨h₁, h₂⟩, ha, hb⟩, h₄⟩, h₅⟩)
      | ⟨⟨⟨⟨h₁, h₂⟩, h₃⟩, ha, hb⟩, h₅⟩)
      | ⟨⟨⟨⟨h₁, h₂⟩, h₃⟩, h₄⟩, ha, hb⟩
    · have hd₁ : c₁.isDigit = true := char_range_isDigit '1' '5' c₁ (by decide) (by decide) ha hb
      simp [List.all, hd₁, h₂, h₃, h₄, h₅]
    · have hd₁ : c₁.isDigit = true := by rw [h₁]; decide
      have hd₂ : c₂.isDigit = true := char_range_isDigit '0' '4' c₂ (by decide) (by decide) ha hb
      simp [List.all, hd₁, hd₂, h₃, h₄, h₅]
    · have hd₁ : c₁.isDigit = true := by rw [h₁]; decide
      have hd₂ : c₂.isDigit = true := by rw [h₂]; decide
      have hd₃ : c₃.isDigit = true := char_range_isDigit '0' '4' c₃ (by decide) (by decide) ha hb
      simp [List.all, hd₁, hd₂, hd₃, h₄, h₅]
    · have hd₁ : c₁.isDigit = true := by rw [h₁]; decide
      have hd₂ : c₂.isDigit = true := by rw [h₂]; decide
      have hd₃ : c₃.isDigit = true := by rw [h₃]; decide
      have hd₄ : c₄.isDigit = true := char_range_isDigit '0' '2' c₄ (by decide) (by decide) ha hb
      simp [List.all, hd₁, hd₂, hd₃, hd₄, h₅]
    · have hd₁ : c₁.isDigit = true := by rw [h₁]; decide
      have hd₂ : c₂.isDigit = true := by rw [h₂]; decide
      have hd₃ : c₃.isDigit = true := by rw [h₃]; decide
      have hd₄ : c₄.isDigit = true := by rw [h₄]; decide
      have hd₅ : c₅.isDigit = true := char_range_isDigit '0' '5' c₅ (by decide) (by decide) ha hb
      simp [List.all, hd₁, hd₂, hd₃, hd₄, hd₅]
  | c₁ :: c₂ :: c₃ :: c₄ :: c₅ :: c₆ :: rest => simp [isPortChars] at h

theorem from_str_nat_digits (l : List Char)
    (h : (!l.isEmpty && l.all Char.isDigit) = true) :
    from_str_nat l = some (digitsVal l) := by
  rw [from_str_nat, if_pos h]

theorem ipv4Captures_inv (u : List Char) (caps : List (Option (List Char)))
    (hc : ipv4Captures u = some caps) :
    ∃ a ports o₁ o₂ o₃ o₄,
      splitOnChar ':' u = a :: ports
      ∧ splitOnChar '.' a = [o₁, o₂, o₃, o₄]
      ∧ isOctetChars o₁ = true ∧ isOctetChars o₂ = true
      ∧ isOctetChars o₃ = true ∧ isOctetChars o₄ = true
      ∧ ports.all isPortChars = true
      ∧ ((ports.getLast? = none
            ∧ caps = [some u, some o₁, some o₂, some o₃, some o₄, none, none])
        ∨ (∃ p, ports.getLast? = some p
            ∧ caps = [some u, some o₁, some o₂, some o₃, some o₄,
                some (':' :: p), some p])) := by
  unfold ipv4Captures at hc
  split at hc
  · exact Option.noConfusion hc
  next a ports heq₁ =>
    split at hc
    next o₁ o₂ o₃ o₄ heq₂ =>
      split at hc
      next hcond =>
        simp only [Bool.and_eq_true] at hcond
        obtain ⟨⟨⟨⟨hq₁, hq₂⟩, hq₃⟩, hq₄⟩, hq₅⟩ := hcond
        split at hc
        next hlast =>
          exact ⟨a, ports, o₁, o₂, o₃, o₄, heq₁, heq₂, hq₁, hq₂, hq₃, hq₄, hq₅,
            Or.inl ⟨hlast, (Option.some.inj hc).symm⟩⟩
        next p hlast =>
          exact ⟨a, ports, o₁, o₂, o₃, o₄, heq₁, heq₂, hq₁, hq₂, hq₃, hq₄, hq₅,
            Or.inr ⟨p, hlast, (Option.some.inj hc).symm⟩⟩
      next => exact Option.noConfusion hc
    next => exact Option.noConfusion hc

theorem upstream_str_to_tuple_noport (w o₁ o₂ o₃ o₄ : List Char)
    (h₁ : isOctetChars o₁ = true) (h₂ : isOctetChars o₂ = true)
    (h₃ : isOctetChars o₃ = true) (h₄ : isOctetChars o₄ = true) :
    upstream_str_to_tuple [some w, some o₁, some o₂, some o₃, some o₄, none, none]
      = some (digitsVal o₁, digitsVal o₂, digitsVal o₃, digitsVal o₄, 80) := by
  have f₁ := from_str_nat_digits o₁ (isOctetChars_digits o₁ h₁)
  have f₂ := from_str_nat_digits o₂ (isOctetChars_digits o₂ h₂)
  have f₃ := from_str_nat_digits o₃ (isOctetChars_digits o₃ h₃)
  have f₄ := from_str_nat_digits o₄ (isOctetChars_digits o₄ h₄)
  simp only [upstream_str_to_tuple, capGet, List.getD_cons_succ, List.getD_cons_zero,
    Option.some_bind, f₁, f₂, f₃, f₄, List.countP_cons, List.countP_nil]
  simp

theorem upstream_str_to_tuple_port (w o₁ o₂ o₃ o₄ p : List Char)
    (h₁ : isOctetChars o₁ = true) (h₂ : isOctetChars o₂ = true)
    (h₃ : isOctetChars o₃ = true) (h₄ : isOctetChars o₄ = true)
    (hp : isPortChars p = true) :
    upstream_str_to_tuple
        [some w, some o₁, some o₂, some o₃, some o₄, some (':' :: p), some p]
      = some (digitsVal o₁, digitsVal o₂, digitsVal o₃, digitsVal o₄, digitsVal p) := by
  have f₁ := from_str_nat_digits o₁ (isOctetChars_digits o₁ h₁)
  have f₂ := from_str_nat_digits o₂ (isOctetChars_digits o₂ h₂)
  have f₃ := from_str_nat_digits o₃ (isOctetChars_digits o₃ h₃)
  have f₄ := from_str_nat_digits o₄ (isOctetChars_digits o₄ h₄)
  have fp := from_str_nat_digits p (isPortChars_digits p hp)
  simp only [upstream_str_to_tuple, capGet, List.getD_cons_succ, List.getD_cons_zero,
    Option.some_bind, f₁, f₂, f₃, f₄, fp, List.countP_cons, List.countP_nil]
  simp

/-- C8: for every upstream configuration string matching the IPv4 pattern
(quantified through its capture groups), the conversion to the internal
upstream representation yields the structured IPv4 address whose octets
are the parsed capture values — with port 80 when no `":port"` suffix was
captured (group 6 empty), and with the captured port value otherwise. -/
theorem ipv4_conversion (u : List Char) (w o₁ o₂ o₃ o₄ : List Char)
    (g₅ g₆ : Option (List Char))
    (hc : ipv4Captures u = some [some w, some o₁, some o₂, some o₃, some o₄, g₅, g₆]) :
    (g₆ = none →
      upstreamOfString u
        = some (Upstream.build_from_ipv4
            (digitsVal o₁, digitsVal o₂, digitsVal o₃, digitsVal o₄, 80)))
    ∧ (∀ p, g₆ = some p →
      upstreamOfString u
        = some (Upstream.build_from_ipv4
            (digitsVal o₁, digitsVal o₂, digitsVal o₃, digitsVal o₄, digitsVal p))) := by
  obtain ⟨a, ports, o₁', o₂', o₃', o₄', hsp, hsd, ho₁, ho₂, ho₃, ho₄, hall, hdisj⟩ :=
    ipv4Captures_inv u _ hc
  constructor
  · intro hg₆
    rcases hdisj with ⟨hlast, hEq⟩ | ⟨p', hlast, hEq⟩
    · obtain ⟨hw, h₁, h₂, h₃, h₄, h₅, h₆⟩ :
          w = u ∧ o₁ = o₁' ∧ o₂ = o₂' ∧ o₃ = o₃' ∧ o₄ = o₄'
            ∧ g₅ = none ∧ g₆ = none := by
        simpa using hEq
      simp only [upstreamOfString, hc, h₅, h₆]
      rw [upstream_str_to_tuple_noport w o₁ o₂ o₃ o₄
        (h₁.symm ▸ ho₁) (h₂.symm ▸ ho₂) (h₃.symm ▸ ho₃) (h₄.symm ▸ ho₄)]
      rfl
    · obtain ⟨hw, h₁, h₂, h₃, h₄, h₅, h₆⟩ :
          w = u ∧ o₁ = o₁' ∧ o₂ = o₂' ∧ o₃ = o₃' ∧ o₄ = o₄'
            ∧ g₅ = some (':' :: p') ∧ g₆ = some p' := by
        simpa using hEq
      rw [hg₆] at h₆
      exact Option.noConfusion h₆
  · intro p hg₆
    rcases hdisj with ⟨hlast, hEq⟩ | ⟨p', hlast, hEq⟩
    · obtain ⟨hw, h₁, h₂, h₃, h₄, h₅, h₆⟩ :
          w = u ∧ o₁ = o₁' ∧ o₂ = o₂' ∧ o₃ = o₃' ∧ o₄ = o₄'
            ∧ g₅ = none ∧ g₆ = none := by
        simpa using hEq
      rw [hg₆] at h₆
      exact Option.noConfusion h₆
    · obtain ⟨hw, h₁, h₂, h₃, h₄, h₅, h₆⟩ :
          w = u ∧ o₁ = o₁' ∧ o₂ = o₂' ∧ o₃ = o₃' ∧ o₄ = o₄'
            ∧ g₅ = some (':' :: p') ∧ g₆ = some p' := by
        simpa using hEq
      have hpp : p = p' := by
        rw [hg₆] at h₆
        exact Option.some.inj h₆
      have hp' : isPortChars p' = true :=
        List.all_eq_true.mp hall p' (mem_of_getLast_some ports p' hlast)
      simp only [upstreamOfString, hc, h₅, h₆, hg₆, hpp]
      rw [upstream_str_to_tuple_port w o₁ o₂ o₃ o₄ p'
        (h₁.symm ▸ ho₁) (h₂.symm ▸ ho₂) (h₃.symm ▸ ho₃) (h₄.symm ▸ ho₄) hp']
      rfl

/-- Witness for C8 at the concrete strings `"1.2.3.4"` (no port → 80) and
`"10.0.0.1:8080"` (explicit port → 8080). -/
theorem ipv4_conversion_witness :
    upstreamOfString ("1.2.3.4".toList)
      = some (Upstream.build_from_ipv4
          (digitsVal ['1'], digitsVal ['2'], digitsVal ['3'], digitsVal ['4'], 80))
    ∧ upstreamOfString ("10.0.0.1:8080".toList)
      = some (Upstream.build_from_ipv4
          (digitsVal ['1', '0'], digitsVal ['0'], digitsVal ['0'], digitsVal ['1'],
            digitsVal ['8', '0', '8', '0'])) :=
  ⟨(ipv4_conversion ("1.2.3.4".toList) ("1.2.3.4".toList)
      ['1'] ['2'] ['3'] ['4'] none none (by decide)).1 rfl,
   (ipv4_conversion ("10.0.0.1:8080".toList) ("10.0.0.1:8080".toList)
      ['1', '0'] ['0'] ['0'] ['1'] (some [':', '8', '0', '8', '0'])
      (some ['8', '0', '8', '0']) (by decide)).2 ['8', '0', '8', '0'] rfl⟩
